import Mathlib

/-! # Rhino VM memory: a shallow embedding of `src/vm/ram.c`

The C file implements the memory of a small virtual machine: one flat byte
buffer `ram->m`, a loader that copies a file into it, a three-byte instruction
fetch and single-byte load and store.

Conventions of the embedding

* A byte is a raw 8-bit pattern, `Fin 256`.
* The header `vm.h` is not part of the sources, so the constants `MAX_RAM` and
  `MAX_STACK` it defines are fields of `Config`. Whether plain `char` is signed
  is left to the platform by C, so it is a field of `Config` as well.
* C leaves a call undefined when it indexes `ram->m` outside the buffer, when it
  hands a null stream to stdio, or when `int` arithmetic overflows. Such a call
  ends in `Result.undef` with the `Fault` reached. Every call yields an
  `Outcome`: the result (return value and out-parameters, or the fault), the
  contents of `ram->m` when the call returned or got stuck, and the messages
  written to `stderr`.
-/

namespace Rhino

/-- One raw 8-bit value, the content of a `char` object. -/
abbrev Byte := Fin 256

/-- Constants of the build. `MAX_RAM` and `MAX_STACK` are the macros of the
absent header `vm.h`; `char_signed` tells whether plain `char` is a signed type
on the target (it is on x86, it is not on ARM Linux). -/
structure Config where
  MAX_RAM : Nat
  MAX_STACK : Nat
  char_signed : Bool
  deriving DecidableEq, Repr

/-- Largest value of the C type `int` (32 bits, two's complement). -/
def INT_MAX : Int := 2147483647

/-- Modelled from the spec: the declaration of `struct ram` is in the absent
header `vm.h`. The spec describes it as one attribute `bytes`, "a fixed-length
ordered sequence of raw 8-bit values, length = MAX_RAM"; the source calls that
member `m`. The length is not part of the type: it is the invariant
`m.length = MAX_RAM`, established by `new_ram`. -/
structure ram where
  m : List Byte
  deriving DecidableEq, Repr

set_option linter.dupNamespace false in
/-- Modelled from the spec: the declaration of `struct ins` is in the absent
header `vm.h`. The spec gives an instruction three one-byte attributes, opcode,
`arg1` and `arg2`; the source calls the first member `ins`. -/
structure ins where
  ins : Byte
  arg1 : Byte
  arg2 : Byte
  deriving DecidableEq, Repr

/-- The four diagnostics the file prints on `stderr`, one per `fprintf`. -/
inductive Msg where
  | cant_alloc
  | cant_open
  | too_big
  | memory_overflow
  deriving DecidableEq, Repr

/-- The ways a call leaves defined behaviour. `outOfBounds i`: an access to
`ram->m[i]` with `i` outside the buffer. `nullStream`: a stdio call on a null
`FILE *`. `intOverflow`: a signed `int` addition whose result is not an `int`. -/
inductive Fault where
  | outOfBounds (index : Int)
  | nullStream
  | intOverflow
  deriving DecidableEq, Repr

/-- The result of a C expression or library call: a value, or the fault at
which it is undefined. -/
inductive Result (α : Type) where
  | ok (v : α)
  | undef (f : Fault)
  deriving DecidableEq, Repr

/-- What one call does. `res` is what the call returns (with its
out-parameters), or the fault it reaches. `mem` is the content of `ram->m` at
the moment the call returns or, for a fault, just before the undefined
operation (every write made before it is in `mem`). `err` lists the messages
printed on `stderr` up to that moment. -/
structure Outcome (α : Type) where
  res : Result α
  mem : ram
  err : List Msg
  deriving DecidableEq, Repr

/-- The conversion `(int)addr` of a `char` holding the bit pattern `c`: the
value is sign-extended when `char` is signed. -/
def char_to_int (cfg : Config) (c : Byte) : Int :=
  if cfg.char_signed = true ∧ 128 ≤ c.val then (c.val : Int) - 256 else (c.val : Int)

/-- The rvalue `ram->m[i]` for an `int` index `i`. -/
def m_read (r : ram) (i : Int) : Result Byte :=
  if 0 ≤ i then
    match r.m[i.toNat]? with
    | some b => Result.ok b
    | none => Result.undef (Fault.outOfBounds i)
  else Result.undef (Fault.outOfBounds i)

/-- The assignment `ram->m[i] = v` for an `int` index `i`. -/
def m_write (r : ram) (i : Int) (v : Byte) : Result ram :=
  if 0 ≤ i ∧ i.toNat < r.m.length then Result.ok { m := r.m.set i.toNat v }
  else Result.undef (Fault.outOfBounds i)

/-- The call `memset(p, c, n)` on a block holding the bytes `p`, of which `n`
are overwritten (`n` is the size of the block in the one call of the file). -/
def memset (p : List Byte) (c : Byte) (n : Nat) : List Byte :=
  List.replicate n c ++ p.drop n

/-- The call `memcpy(ram->m + off, buff, n)` where `buff` holds the `n` bytes
to copy: the bytes are written one after the other at the indices `off`,
`off + 1`, ..., and the call is undefined at the first index outside the
buffer; the bytes written before that index stay written. -/
def memcpy (r : ram) (off : Nat) : List Byte → Outcome Unit
  | [] => { res := Result.ok (), mem := r, err := [] }
  | b :: bs =>
    match m_write r (off : Int) b with
    | Result.undef f => { res := Result.undef f, mem := r, err := [] }
    | Result.ok r1 => memcpy r1 (off + 1) bs

/-- Lines 7-19. `malloc` is the environment's answer to
`malloc(sizeof(struct ram))`: `none` for a null pointer, `some raw` for a block
whose byte `i` holds the indeterminate value `raw i`. The pair is the pointer
returned and what was printed. -/
def new_ram (cfg : Config) (malloc : Option (Nat → Byte)) : Option ram × List Msg :=
  match malloc with
  | none => (none, [Msg.cant_alloc])
  | some raw => (some { m := memset ((List.range cfg.MAX_RAM).map raw) 0 cfg.MAX_RAM }, [])

/-- The buffers that the successive calls `fread(buff, 1, size, fp)` deliver
when every call fills the buffer as far as the bytes `s` left in the file allow,
which is what `fread` does on a regular file: blocks of `size` bytes, the last
one shorter, until a call delivers nothing. Every block removes a byte from
`s`, so `fuel = s.length` calls are enough (`fread_seq_flatten`). It is one of
the read sequences `load_code` can be given, not the only one. -/
def fread_seq (size : Nat) : Nat → List Byte → List (List Byte)
  | 0, _ => []
  | fuel + 1, s =>
    if (s.take size).length = 0 then []
    else s.take size :: fread_seq size fuel (s.drop size)

/-- Lines 34-41, the `while` loop of `load_code`. `total` is the variable of
that name and the list holds what the coming `fread` calls deliver, in order
(an empty list or an empty buffer: `fread` returns 0). -/
def load_loop (cfg : Config) : ram → Nat → List (List Byte) → Outcome Unit
  | r, _, [] => { res := Result.ok (), mem := r, err := [] }
  | r, total, buff :: rest =>
    let n := buff.length
    if n = 0 then { res := Result.ok (), mem := r, err := [] }
    else
      let total := total + n
      if total ≥ cfg.MAX_RAM then { res := Result.ok (), mem := r, err := [Msg.too_big] }
      else
        let c := memcpy r cfg.MAX_STACK buff
        match c.res with
        | Result.undef f => { res := Result.undef f, mem := c.mem, err := [] }
        | Result.ok _ => load_loop cfg c.mem total rest

/-- Lines 22-44. `fp` is what `fopen(filename, "rb")` yields: `none` for a null
pointer (the file cannot be opened), `some reads` for a stream, given by the
buffers that its successive `fread(buff, 1, MAX_RAM, fp)` calls deliver, in
order. A call may deliver fewer bytes than asked and the next one more of them
(a short read), so `reads` is any list of buffers; the loop ends at the first
empty one or at the end of the list. After a failed `fopen` the message is
printed and execution goes on to `fread` with the null stream. -/
def load_code (cfg : Config) (r : ram) (fp : Option (List (List Byte))) : Outcome Unit :=
  match fp with
  | none => { res := Result.undef Fault.nullStream, mem := r, err := [Msg.cant_open] }
  | some reads => load_loop cfg r 0 reads

/-- Lines 47-60. `i0` is the content of `*ins` before the call; the result is
the `int` returned and the content of `*ins` after it. -/
def get_ins (cfg : Config) (r : ram) (pos : Int) (i0 : ins) : Outcome (Int × ins) :=
  if pos + 2 > INT_MAX then { res := Result.undef Fault.intOverflow, mem := r, err := [] }
  else if pos + 2 > (cfg.MAX_RAM : Int) then
    { res := Result.ok (1, i0), mem := r, err := [Msg.memory_overflow] }
  else
    match m_read r pos with
    | Result.undef f => { res := Result.undef f, mem := r, err := [] }
    | Result.ok b0 =>
      match m_read r (pos + 1) with
      | Result.undef f => { res := Result.undef f, mem := r, err := [] }
      | Result.ok b1 =>
        match m_read r (pos + 2) with
        | Result.undef f => { res := Result.undef f, mem := r, err := [] }
        | Result.ok b2 =>
          { res := Result.ok (0, { ins := b0, arg1 := b1, arg2 := b2 }), mem := r, err := [] }

/-- Lines 63-67. The result is the `int` returned and the byte stored in
`*value`. -/
def ram_load (cfg : Config) (r : ram) (addr : Byte) : Outcome (Int × Byte) :=
  match m_read r (char_to_int cfg addr) with
  | Result.undef f => { res := Result.undef f, mem := r, err := [] }
  | Result.ok b => { res := Result.ok (0, b), mem := r, err := [] }

/-- Lines 70-74. -/
def ram_store (cfg : Config) (r : ram) (addr : Byte) (value : Byte) : Outcome Int :=
  match m_write r (char_to_int cfg addr) value with
  | Result.undef f => { res := Result.undef f, mem := r, err := [] }
  | Result.ok r1 => { res := Result.ok 0, mem := r1, err := [] }

/-- The constants of the scenario of the spec (section 8), `MAX_RAM = 256` and
`MAX_STACK = 64`, on a target where `char` is signed. -/
def scenario : Config := { MAX_RAM := 256, MAX_STACK := 64, char_signed := true }

/-- A small build used to evaluate the definitions: eight bytes of memory, the
first two reserved for the stack. -/
def tiny : Config := { MAX_RAM := 8, MAX_STACK := 2, char_signed := true }

/-- A memory of `n` bytes, all equal to `b`. -/
def filled (n : Nat) (b : Byte) : ram := { m := List.replicate n b }

/-- A memory of eight distinct bytes, for the build `tiny`. -/
def sample : ram := { m := [10, 11, 12, 13, 14, 15, 16, 17] }

/-! ## Memory accesses -/

theorem char_to_int_of_small (cfg : Config) (a : Byte)
    (hs : cfg.char_signed = true → a.val < 128) : char_to_int cfg a = (a.val : Int) := by
  unfold char_to_int
  split
  · next h => have := hs h.1; omega
  · rfl

theorem m_read_eq_ok (r : ram) (i : Int) (b : Byte) (h0 : 0 ≤ i)
    (hb : r.m[i.toNat]? = some b) : m_read r i = Result.ok b := by
  unfold m_read
  rw [if_pos h0, hb]

theorem m_read_nat (r : ram) (n : Nat) (b : Byte) (hb : r.m[n]? = some b) :
    m_read r (n : Int) = Result.ok b :=
  m_read_eq_ok r n b (Int.ofNat_nonneg n) (by simpa using hb)

theorem m_write_nat (r : ram) (n : Nat) (v : Byte) (hn : n < r.m.length) :
    m_write r (n : Int) v = Result.ok { m := r.m.set n v } := by
  unfold m_write
  rw [if_pos ⟨Int.ofNat_nonneg n, by simpa using hn⟩]
  simp

theorem m_write_nat_out (r : ram) (n : Nat) (v : Byte) (hn : r.m.length ≤ n) :
    m_write r (n : Int) v = Result.undef (Fault.outOfBounds n) := by
  unfold m_write
  rw [if_neg]
  simp
  omega

/-- A `memcpy` that fits in the buffer returns, keeps the length of the buffer
and changes exactly the indices `off .. off + n - 1`. -/
theorem memcpy_fits (buff : List Byte) : ∀ (r : ram) (off : Nat),
    off + buff.length ≤ r.m.length →
    ∃ r1 : ram, memcpy r off buff = { res := Result.ok (), mem := r1, err := [] } ∧
      r1.m.length = r.m.length ∧
      (∀ i, i < buff.length → r1.m[off + i]? = buff[i]?) ∧
      (∀ j, j < off ∨ off + buff.length ≤ j → r1.m[j]? = r.m[j]?) := by
  induction buff with
  | nil => intro r off _; exact ⟨r, rfl, rfl, by simp, by simp⟩
  | cons b bs ih =>
    intro r off h
    simp only [List.length_cons] at h
    obtain ⟨r1, hrun, hl, hin, hout⟩ := ih { m := r.m.set off b } (off + 1) (by simp; omega)
    refine ⟨r1, ?_, by simpa using hl, ?_, ?_⟩
    · simp only [memcpy]
      rw [m_write_nat r off b (by omega)]
      exact hrun
    · intro i hi
      cases i with
      | zero =>
        rw [Nat.add_zero, hout off (Or.inl (by omega))]
        simp [List.getElem?_set]
        omega
      | succ k =>
        have := hin k (by simpa using hi)
        rw [show off + (k + 1) = off + 1 + k by omega, this]
        simp
    · intro j hj
      rw [hout j (by simp only [List.length_cons] at hj; omega)]
      simp only [List.length_cons] at hj
      rw [List.getElem?_set_ne (by omega)]

/-- Whatever a `memcpy` does, returning or not, it leaves the bytes below its
destination as they were. -/
theorem memcpy_mem_below (buff : List Byte) : ∀ (r : ram) (off j : Nat), j < off →
    (memcpy r off buff).mem.m[j]? = r.m[j]? := by
  induction buff with
  | nil => intro r off j _; rfl
  | cons b bs ih =>
    intro r off j hj
    simp only [memcpy]
    by_cases hlt : off < r.m.length
    · rw [m_write_nat r off b hlt]
      simp only
      rw [ih _ (off + 1) j (by omega)]
      simp only
      rw [List.getElem?_set_ne (by omega)]
    · rw [m_write_nat_out r off b (by omega)]

/-! ## The stream of a regular file -/

theorem fread_seq_nil (size fuel : Nat) : fread_seq size fuel [] = [] := by
  cases fuel <;> simp [fread_seq]

/-- The fuel of `fread_seq` does not matter once it reaches the length of the
file. -/
theorem fread_seq_fuel (size : Nat) : ∀ (f1 f2 : Nat) (s : List Byte),
    s.length ≤ f1 → s.length ≤ f2 → fread_seq size f1 s = fread_seq size f2 s := by
  intro f1
  induction f1 with
  | zero =>
    intro f2 s h1 _
    have hs : s = [] := List.length_eq_zero.mp (by omega)
    subst hs
    rw [fread_seq_nil, fread_seq_nil]
  | succ k ih =>
    intro f2 s h1 h2
    cases f2 with
    | zero =>
      have hs : s = [] := List.length_eq_zero.mp (by omega)
      subst hs
      rw [fread_seq_nil, fread_seq_nil]
    | succ k2 =>
      simp only [fread_seq]
      by_cases hz : (List.take size s).length = 0
      · rw [if_pos hz, if_pos hz]
      · rw [if_neg hz, if_neg hz]
        have hd : (List.drop size s).length ≤ s.length - 1 := by
          simp only [List.length_take] at hz
          simp only [List.length_drop]
          omega
        rw [ih k2 (List.drop size s) (by omega) (by omega)]

/-- With a buffer of at least one byte, the `fread` calls deliver the whole
file, in order: the fuel `s.length` is enough. -/
theorem fread_seq_flatten (size : Nat) (hsize : 0 < size) : ∀ (fuel : Nat) (s : List Byte),
    s.length ≤ fuel → (fread_seq size fuel s).flatten = s := by
  intro fuel
  induction fuel with
  | zero =>
    intro s h
    have hs : s = [] := List.length_eq_zero.mp (by omega)
    subst hs
    rfl
  | succ k ih =>
    intro s h
    simp only [fread_seq]
    by_cases hz : (List.take size s).length = 0
    · rw [if_pos hz]
      simp only [List.length_take] at hz
      have hs : s = [] := List.length_eq_zero.mp (by omega)
      subst hs
      rfl
    · rw [if_neg hz]
      simp only [List.length_take] at hz
      rw [List.flatten_cons, ih (List.drop size s) (by simp only [List.length_drop]; omega)]
      exact List.take_append_drop size s

/-- A non-empty file no longer than the buffer arrives in one `fread`. -/
theorem fread_seq_short (size : Nat) (s : List Byte) (hne : s ≠ []) (hle : s.length ≤ size) :
    fread_seq size s.length s = [s] := by
  have hpos : 0 < s.length := List.length_pos.mpr hne
  obtain ⟨k, hk⟩ : ∃ k, s.length = k + 1 := ⟨s.length - 1, by omega⟩
  rw [hk, fread_seq, List.take_of_length_le hle, List.drop_of_length_le hle, fread_seq_nil,
    if_neg (by omega)]

/-! ## The loader -/

/-- The loop of `load_code` never changes a byte below `MAX_STACK`, on any
sequence of reads and whether it runs to its end or not. -/
theorem load_loop_mem_below (cfg : Config) (reads : List (List Byte)) :
    ∀ (r : ram) (total j : Nat), j < cfg.MAX_STACK →
      (load_loop cfg r total reads).mem.m[j]? = r.m[j]? := by
  induction reads with
  | nil => intro r total j _; rfl
  | cons buff rest ih =>
    intro r total j hj
    simp only [load_loop]
    split
    · rfl
    · split
      · rfl
      · split
        · exact memcpy_mem_below buff r cfg.MAX_STACK j hj
        · rw [ih _ _ j hj]
          exact memcpy_mem_below buff r cfg.MAX_STACK j hj

/-! ## Byte store and load -/

/-- C1, as amended: for every memory of `MAX_RAM` bytes, every address `a` below
`MAX_RAM` that is also below 128 when `char` is signed, and every byte `v`,
`ram_store` at `a` returns 0 and `ram_load` at `a` then returns 0 and yields
`v`. -/
theorem ram_store_load_roundtrip (cfg : Config) (r : ram) (a v : Byte)
    (hlen : r.m.length = cfg.MAX_RAM) (ha : a.val < cfg.MAX_RAM)
    (hs : cfg.char_signed = true → a.val < 128) :
    ∃ r1 : ram, ram_store cfg r a v = { res := Result.ok 0, mem := r1, err := [] } ∧
      ram_load cfg r1 a = { res := Result.ok (0, v), mem := r1, err := [] } := by
  have hidx := char_to_int_of_small cfg a hs
  have hlt : a.val < r.m.length := by omega
  refine ⟨{ m := r.m.set a.val v }, ?_, ?_⟩
  · unfold ram_store
    rw [hidx, m_write_nat r a.val v hlt]
  · unfold ram_load
    rw [hidx, m_read_nat _ a.val v (by simp [List.getElem?_set, hlt])]

/-- C1, the amended statement at address 5 of the eight-byte memory `sample`. -/
theorem ram_store_load_roundtrip_witness :
    sample.m.length = tiny.MAX_RAM ∧ (5 : Byte).val < tiny.MAX_RAM ∧
      (tiny.char_signed = true → (5 : Byte).val < 128) ∧
      ∃ r1 : ram, ram_store tiny sample 5 99 = { res := Result.ok 0, mem := r1, err := [] } ∧
        ram_load tiny r1 5 = { res := Result.ok (0, 99), mem := r1, err := [] } :=
  ⟨by decide, by decide, by decide,
    ram_store_load_roundtrip tiny sample 5 99 (by decide) (by decide) (by decide)⟩

set_option maxRecDepth 100000 in
/-- C1 fails as stated: with `MAX_RAM = 256` and a signed `char`, address 128
is a valid address, yet `ram_store` there indexes `ram->m[-128]`; the call is
undefined and does not return success. -/
theorem ram_store_high_address_undefined :
    (128 : Byte).val < scenario.MAX_RAM ∧ (filled 256 0).m.length = scenario.MAX_RAM ∧
      ram_store scenario (filled 256 0) 128 1 =
        { res := Result.undef (Fault.outOfBounds (-128)), mem := filled 256 0, err := [] } ∧
      (ram_store scenario (filled 256 0) 128 1).res ≠ Result.ok 0 := by
  decide

/-- C8, as amended: for every address byte whose index lies inside
`[0, MAX_RAM)`, `ram_load` returns 0 with the byte at that index and
`ram_store` returns 0 having written that index; and the two functions have no
other result: whenever either returns, it returns 0. -/
theorem ram_access_in_range (cfg : Config) (r : ram) (addr value : Byte)
    (hlen : r.m.length = cfg.MAX_RAM) (h0 : 0 ≤ char_to_int cfg addr)
    (h1 : char_to_int cfg addr < (cfg.MAX_RAM : Int)) :
    (∃ b : Byte, r.m[(char_to_int cfg addr).toNat]? = some b ∧
        ram_load cfg r addr = { res := Result.ok (0, b), mem := r, err := [] }) ∧
      ram_store cfg r addr value =
        { res := Result.ok 0, mem := { m := r.m.set (char_to_int cfg addr).toNat value },
          err := [] } ∧
      (∀ (a : Byte) (ret : Int) (b : Byte),
        (ram_load cfg r a).res = Result.ok (ret, b) → ret = 0) ∧
      (∀ (a v : Byte) (ret : Int), (ram_store cfg r a v).res = Result.ok ret → ret = 0) := by
  obtain ⟨n, hn⟩ := Int.eq_ofNat_of_zero_le h0
  have hlt : n < r.m.length := by omega
  refine ⟨⟨r.m[n], ?_, ?_⟩, ?_, ?_, ?_⟩
  · rw [hn]; simp
  · unfold ram_load
    rw [hn, m_read_nat r n _ (List.getElem?_eq_getElem hlt)]
  · unfold ram_store
    rw [hn, m_write_nat r n value hlt]
    simp
  · intro a ret b h
    unfold ram_load at h
    split at h
    · simp at h
    · simp only [Result.ok.injEq, Prod.mk.injEq] at h
      exact h.1.symm
  · intro a v ret h
    unfold ram_store at h
    split at h
    · simp at h
    · simp only [Result.ok.injEq] at h
      exact h.symm

/-- C8, the amended statement at address 5 of the eight-byte memory `sample`. -/
theorem ram_access_in_range_witness :
    sample.m.length = tiny.MAX_RAM ∧ 0 ≤ char_to_int tiny 5 ∧
      char_to_int tiny 5 < (tiny.MAX_RAM : Int) ∧
      ram_store tiny sample 5 99 =
        { res := Result.ok 0, mem := { m := sample.m.set (char_to_int tiny 5).toNat 99 },
          err := [] } :=
  ⟨by decide, by decide, by decide,
    (ram_access_in_range tiny sample 5 99 (by decide) (by decide) (by decide)).2.1⟩

set_option maxRecDepth 100000 in
/-- C8 fails as stated: with `MAX_RAM = 256` and a signed `char`, the address
byte 200 has index -56, outside `[0, 256)`, and neither function answers with
an out-of-range result: both go on to index `ram->m[-56]`. -/
theorem ram_access_out_of_range_unchecked :
    char_to_int scenario 200 = -56 ∧
      ram_load scenario (filled 256 0) 200 =
        { res := Result.undef (Fault.outOfBounds (-56)), mem := filled 256 0, err := [] } ∧
      ram_store scenario (filled 256 0) 200 7 =
        { res := Result.undef (Fault.outOfBounds (-56)), mem := filled 256 0, err := [] } ∧
      ¬ (∃ (ret : Int) (b : Byte), ret ≠ 0 ∧
          (ram_load scenario (filled 256 0) 200).res = Result.ok (ret, b)) := by
  refine ⟨by decide, by decide, by decide, ?_⟩
  rintro ⟨ret, b, _, h⟩
  have e : (ram_load scenario (filled 256 0) 200).res
      = Result.undef (Fault.outOfBounds (-56)) := by decide
  rw [e] at h
  exact Result.noConfusion h

/-! ## Instruction fetch -/

/-- C2: for every memory of `MAX_RAM` bytes (`MAX_RAM` an `int` constant) and
every `pos` with `0 <= pos` and `pos + 2 < MAX_RAM`, `get_ins` returns 0 and
sets `ins`, `arg1`, `arg2` to the bytes at `pos`, `pos + 1`, `pos + 2`, in that
order. -/
theorem get_ins_fetch (cfg : Config) (r : ram) (pos : Int) (i0 : ins)
    (hlen : r.m.length = cfg.MAX_RAM) (hint : (cfg.MAX_RAM : Int) ≤ INT_MAX)
    (h0 : 0 ≤ pos) (h2 : pos + 2 < (cfg.MAX_RAM : Int)) :
    ∃ b0 b1 b2 : Byte, r.m[pos.toNat]? = some b0 ∧ r.m[pos.toNat + 1]? = some b1 ∧
      r.m[pos.toNat + 2]? = some b2 ∧
      get_ins cfg r pos i0 =
        { res := Result.ok (0, { ins := b0, arg1 := b1, arg2 := b2 }), mem := r, err := [] } := by
  obtain ⟨n, rfl⟩ := Int.eq_ofNat_of_zero_le h0
  have hn : n + 2 < r.m.length := by omega
  have e0 : r.m[n]? = some (r.m[n]) := List.getElem?_eq_getElem (by omega)
  have e1 : r.m[n + 1]? = some (r.m[n + 1]) := List.getElem?_eq_getElem (by omega)
  have e2 : r.m[n + 2]? = some (r.m[n + 2]) := List.getElem?_eq_getElem (by omega)
  refine ⟨r.m[n], r.m[n + 1], r.m[n + 2], by simp, by simp, by simp, ?_⟩
  unfold get_ins
  rw [if_neg (by omega), if_neg (by omega)]
  have r0 := m_read_nat r n _ e0
  have r1 := m_read_nat r (n + 1) _ e1
  have r2 := m_read_nat r (n + 2) _ e2
  push_cast at r1 r2
  rw [r0, r1, r2]

/-- C2 at `pos = 5` of the eight-byte memory `sample`: the fetch returns 0 with
the bytes 15, 16, 17. -/
theorem get_ins_fetch_witness :
    sample.m.length = tiny.MAX_RAM ∧ (tiny.MAX_RAM : Int) ≤ INT_MAX ∧ (0 : Int) ≤ 5 ∧
      (5 : Int) + 2 < (tiny.MAX_RAM : Int) ∧
      get_ins tiny sample 5 ⟨0, 0, 0⟩ =
        { res := Result.ok (0, { ins := 15, arg1 := 16, arg2 := 17 }), mem := sample,
          err := [] } := by
  refine ⟨by decide, by decide, by decide, by decide, ?_⟩
  obtain ⟨b0, b1, b2, e0, e1, e2, h⟩ :=
    get_ins_fetch tiny sample 5 ⟨0, 0, 0⟩ (by decide) (by decide) (by decide) (by decide)
  have f0 : b0 = 15 := (Option.some.inj e0).symm
  have f1 : b1 = 16 := (Option.some.inj e1).symm
  have f2 : b2 = 17 := (Option.some.inj e2).symm
  rw [h, f0, f1, f2]

set_option maxRecDepth 100000 in
/-- C3 on the code: with `MAX_RAM = 256`, `get_ins` at `pos = 254` passes the
test `pos + 2 > MAX_RAM`, reads `m[254]` and `m[255]` and then indexes
`m[256]`, past the buffer; it does not return 1. At `pos = -1` the test passes
as well and the first read indexes `m[-1]`. -/
theorem get_ins_accepts_out_of_range :
    (filled 256 0).m.length = scenario.MAX_RAM ∧
      get_ins scenario (filled 256 0) 254 ⟨9, 9, 9⟩ =
        { res := Result.undef (Fault.outOfBounds 256), mem := filled 256 0, err := [] } ∧
      get_ins scenario (filled 256 0) (-1) ⟨9, 9, 9⟩ =
        { res := Result.undef (Fault.outOfBounds (-1)), mem := filled 256 0, err := [] } ∧
      get_ins scenario (filled 256 0) 255 ⟨9, 9, 9⟩ =
        { res := Result.ok (1, ⟨9, 9, 9⟩), mem := filled 256 0,
          err := [Msg.memory_overflow] } := by
  decide

/-- C10: for every memory and every `pos`, the memory that `get_ins` leaves is
the memory it was given, whether it returns 0, returns 1 or stops at an
undefined read. -/
theorem get_ins_mem (cfg : Config) (r : ram) (pos : Int) (i0 : ins) :
    (get_ins cfg r pos i0).mem = r := by
  unfold get_ins
  split
  · rfl
  · split
    · rfl
    · split
      · rfl
      · split
        · rfl
        · split <;> rfl

theorem getElem?_of_lt (l : List Byte) (n : Nat) (h : n < l.length) :
    ∃ b : Byte, l[n]? = some b :=
  ⟨l[n], List.getElem?_eq_getElem h⟩

/-- A fetch whose three reads are inside the buffer returns 0 with the three
bytes, provided `pos + 2` is an `int` and passes the test of line 50. -/
theorem get_ins_in_bounds (cfg : Config) (r : ram) (n : Nat) (i0 : ins)
    (hno : (n : Int) + 2 ≤ INT_MAX) (hguard : n + 2 ≤ cfg.MAX_RAM) (hin : n + 2 < r.m.length) :
    ∃ b0 b1 b2 : Byte, r.m[n]? = some b0 ∧ r.m[n + 1]? = some b1 ∧ r.m[n + 2]? = some b2 ∧
      get_ins cfg r (n : Int) i0 =
        { res := Result.ok (0, { ins := b0, arg1 := b1, arg2 := b2 }), mem := r, err := [] } := by
  obtain ⟨b0, e0⟩ := getElem?_of_lt r.m n (by omega)
  obtain ⟨b1, e1⟩ := getElem?_of_lt r.m (n + 1) (by omega)
  obtain ⟨b2, e2⟩ := getElem?_of_lt r.m (n + 2) (by omega)
  refine ⟨b0, b1, b2, e0, e1, e2, ?_⟩
  unfold get_ins
  rw [if_neg (by omega), if_neg (by omega)]
  have r0 := m_read_nat r n _ e0
  have r1 := m_read_nat r (n + 1) _ e1
  have r2 := m_read_nat r (n + 2) _ e2
  push_cast at r1 r2
  rw [r0, r1, r2]

/-! ## Allocation -/

/-- C6: when `new_ram` returns a memory, that memory has `MAX_RAM` bytes, all
zero; `ram_load` at every address byte whose index is in `[0, MAX_RAM)` returns
0 and yields the byte 0; and `get_ins` at every `pos` with `0 <= pos` and
`pos + 2 < MAX_RAM` returns 0 and yields the instruction `(0, 0, 0)`. -/
theorem new_ram_zero (cfg : Config) (malloc : Option (Nat → Byte)) (r : ram)
    (hnew : (new_ram cfg malloc).1 = some r) :
    r.m.length = cfg.MAX_RAM ∧ (∀ i, i < cfg.MAX_RAM → r.m[i]? = some 0) ∧
      (∀ addr : Byte, 0 ≤ char_to_int cfg addr → char_to_int cfg addr < (cfg.MAX_RAM : Int) →
        ram_load cfg r addr = { res := Result.ok (0, 0), mem := r, err := [] }) ∧
      (∀ (pos : Int) (i0 : ins), (cfg.MAX_RAM : Int) ≤ INT_MAX → 0 ≤ pos →
        pos + 2 < (cfg.MAX_RAM : Int) →
        get_ins cfg r pos i0 =
          { res := Result.ok (0, { ins := 0, arg1 := 0, arg2 := 0 }), mem := r, err := [] }) := by
  cases malloc with
  | none => simp [new_ram] at hnew
  | some raw =>
    simp only [new_ram, memset, Option.some.injEq] at hnew
    have hm : r.m = List.replicate cfg.MAX_RAM 0 := by
      rw [← hnew]
      simp
    have hlen : r.m.length = cfg.MAX_RAM := by rw [hm, List.length_replicate]
    have hz : ∀ i, i < cfg.MAX_RAM → r.m[i]? = some 0 := by
      intro i hi
      rw [hm, List.getElem?_replicate, if_pos hi]
    refine ⟨hlen, hz, ?_, ?_⟩
    · intro addr h0 h1
      obtain ⟨n, hn⟩ := Int.eq_ofNat_of_zero_le h0
      unfold ram_load
      rw [hn, m_read_nat r n 0 (hz n (by omega))]
    · intro pos i0 hint h0 h2
      obtain ⟨n, rfl⟩ := Int.eq_ofNat_of_zero_le h0
      obtain ⟨b0, b1, b2, e0, e1, e2, h⟩ :=
        get_ins_in_bounds cfg r n i0 (by omega) (by omega) (by omega)
      rw [hz _ (by omega)] at e0 e1 e2
      rw [h, ← Option.some.inj e0, ← Option.some.inj e1, ← Option.some.inj e2]

/-- C6 on the build `tiny`, for a block that `malloc` hands out filled with the
byte 5. -/
theorem new_ram_zero_witness :
    (new_ram tiny (some (fun _ => 5))).1 = some (filled 8 0) ∧
      (filled 8 0).m.length = tiny.MAX_RAM ∧
      (∀ i, i < tiny.MAX_RAM → (filled 8 0).m[i]? = some 0) ∧
      ram_load tiny (filled 8 0) 7 = { res := Result.ok (0, 0), mem := filled 8 0, err := [] } ∧
      get_ins tiny (filled 8 0) 5 ⟨9, 9, 9⟩ =
        { res := Result.ok (0, { ins := 0, arg1 := 0, arg2 := 0 }), mem := filled 8 0,
          err := [] } :=
  have h := new_ram_zero tiny (some (fun _ => 5)) (filled 8 0) (by decide)
  ⟨by decide, h.1, h.2.1, h.2.2.1 7 (by decide) (by decide),
    h.2.2.2 5 ⟨9, 9, 9⟩ (by decide) (by decide) (by decide)⟩

/-! ## Code loading -/

/-- A source that arrives in one read of fewer than `MAX_RAM` bytes and fits
behind `MAX_STACK` is copied by one `memcpy`: the call returns, the buffer keeps
its length, the bytes are at `MAX_STACK` and every other byte is as before. -/
theorem load_code_single_read (cfg : Config) (r : ram) (src : List Byte)
    (hlt : src.length < cfg.MAX_RAM) (hfit : cfg.MAX_STACK + src.length ≤ r.m.length) :
    ∃ r1 : ram, load_code cfg r (some [src]) = { res := Result.ok (), mem := r1, err := [] } ∧
      r1.m.length = r.m.length ∧
      (∀ i, i < src.length → r1.m[cfg.MAX_STACK + i]? = src[i]?) ∧
      (∀ j, j < cfg.MAX_STACK ∨ cfg.MAX_STACK + src.length ≤ j → r1.m[j]? = r.m[j]?) := by
  by_cases hne : src = []
  · subst hne
    exact ⟨r, rfl, rfl, by simp, fun _ _ => rfl⟩
  · obtain ⟨r1, hrun, hl, hin, hout⟩ := memcpy_fits src r cfg.MAX_STACK hfit
    refine ⟨r1, ?_, hl, hin, hout⟩
    have hpos : 0 < src.length := List.length_pos.mpr hne
    simp only [load_code, load_loop]
    rw [if_neg (by omega), if_neg (by omega), hrun]

set_option maxRecDepth 100000 in
/-- C4 on the code: with `MAX_RAM = 256` and `MAX_STACK = 64`, the four-byte
source `[7, 8, 9, 10]` fits, yet when its first read delivers `[7, 8, 9]` and
its second `[10]`, both are copied to `ram->m + MAX_STACK`: address 64 ends
with 10, not byte 0 of the source, and address 67 keeps its old 0, not byte
3. Delivered in one read, the same source is placed as the claim says. -/
theorem load_code_two_reads_misplaced :
    [(7 : Byte), 8, 9, 10].length + scenario.MAX_STACK ≤ scenario.MAX_RAM ∧
      ([[7, 8, 9], [10]] : List (List Byte)).flatten = [7, 8, 9, 10] ∧
      load_code scenario (filled 256 0) (some [[7, 8, 9], [10]]) =
        { res := Result.ok (),
          mem := { m := List.replicate 64 0 ++ [10, 8, 9, 0] ++ List.replicate 188 0 },
          err := [] } ∧
      (load_code scenario (filled 256 0) (some [[7, 8, 9], [10]])).mem.m[scenario.MAX_STACK + 0]? ≠
        [(7 : Byte), 8, 9, 10][0]? ∧
      (load_code scenario (filled 256 0) (some [[7, 8, 9], [10]])).mem.m[scenario.MAX_STACK + 3]? ≠
        [(7 : Byte), 8, 9, 10][3]? ∧
      load_code scenario (filled 256 0) (some [[7, 8, 9, 10]]) =
        { res := Result.ok (),
          mem := { m := List.replicate 64 0 ++ [7, 8, 9, 10] ++ List.replicate 188 0 },
          err := [] } := by
  decide

set_option maxRecDepth 1000000 in
/-- C5 on the code: with `MAX_RAM = 256` and `MAX_STACK = 64`, a file of 200
bytes is too large (`200 + 64 > 256`), yet `total = 200` passes the test
`total >= MAX_RAM`: nothing is printed and `memcpy` writes the indices 64 to
255 and then index 256, past the buffer. The file is a regular file: it arrives
in one read. -/
theorem load_code_overflows_buffer :
    (List.replicate 200 (1 : Byte)).length + scenario.MAX_STACK > scenario.MAX_RAM ∧
      (filled 256 0).m.length = scenario.MAX_RAM ∧
      fread_seq scenario.MAX_RAM 200 (List.replicate 200 1) = [List.replicate 200 1] ∧
      (load_code scenario (filled 256 0)
          (some (fread_seq scenario.MAX_RAM 200 (List.replicate 200 1)))).res =
        Result.undef (Fault.outOfBounds 256) ∧
      (load_code scenario (filled 256 0)
          (some (fread_seq scenario.MAX_RAM 200 (List.replicate 200 1)))).err = [] ∧
      (load_code scenario (filled 256 0)
          (some (fread_seq scenario.MAX_RAM 200 (List.replicate 200 1)))).mem.m =
        List.replicate 64 0 ++ List.replicate 192 1 := by
  decide

/-- C7 on the code: when the file cannot be opened, `load_code` prints its
message and goes on to call `fread` on the null stream, which is undefined; it
does not return. The memory is untouched up to that point. -/
theorem load_code_null_stream (cfg : Config) (r : ram) :
    load_code cfg r none =
      { res := Result.undef Fault.nullStream, mem := r, err := [Msg.cant_open] } :=
  rfl

/-- C9: for every memory and every source, of any length and however its reads
deliver it, and also when the file cannot be opened, every byte at an address
below `MAX_STACK` is after `load_code` what it was before, whether the call
returns or stops at an undefined operation. -/
theorem load_code_stack_untouched (cfg : Config) (r : ram) (fp : Option (List (List Byte)))
    (j : Nat) (hj : j < cfg.MAX_STACK) : (load_code cfg r fp).mem.m[j]? = r.m[j]? := by
  cases fp with
  | none => rfl
  | some reads => exact load_loop_mem_below cfg reads r 0 j hj

/-- C9 on the build `tiny`, for a seven-byte file, which overflows the eight-byte
memory: byte 1 of the stack region is unchanged. -/
theorem load_code_stack_untouched_witness :
    1 < tiny.MAX_STACK ∧
      (load_code tiny sample (some [[1, 2, 3, 4, 5, 6, 7]])).mem.m[1]? = sample.m[1]? :=
  ⟨by decide,
    load_code_stack_untouched tiny sample (some [[1, 2, 3, 4, 5, 6, 7]]) 1 (by decide)⟩

/-! ## The size of the buffer -/

theorem m_write_length (r r1 : ram) (i : Int) (v : Byte) (h : m_write r i v = Result.ok r1) :
    r1.m.length = r.m.length := by
  unfold m_write at h
  split at h
  · simp only [Result.ok.injEq] at h
    rw [← h]
    simp
  · exact Result.noConfusion h

/-- Whatever a `memcpy` does, returning or not, the buffer keeps its length. -/
theorem memcpy_mem_length (buff : List Byte) : ∀ (r : ram) (off : Nat),
    (memcpy r off buff).mem.m.length = r.m.length := by
  induction buff with
  | nil => intro r off; rfl
  | cons b bs ih =>
    intro r off
    simp only [memcpy]
    cases hw : m_write r (off : Int) b with
    | undef f => rfl
    | ok r1 =>
      simp only
      rw [ih r1 (off + 1), m_write_length r r1 _ b hw]

/-- The loop of `load_code` keeps the length of the buffer, on any sequence of
reads and whether it runs to its end or not. -/
theorem load_loop_mem_length (cfg : Config) (reads : List (List Byte)) :
    ∀ (r : ram) (total : Nat), (load_loop cfg r total reads).mem.m.length = r.m.length := by
  induction reads with
  | nil => intro r total; rfl
  | cons buff rest ih =>
    intro r total
    simp only [load_loop]
    split
    · rfl
    · split
      · rfl
      · split
        · exact memcpy_mem_length buff r cfg.MAX_STACK
        · rw [ih]
          exact memcpy_mem_length buff r cfg.MAX_STACK

theorem load_code_mem_length (cfg : Config) (r : ram) (fp : Option (List (List Byte))) :
    (load_code cfg r fp).mem.m.length = r.m.length := by
  cases fp with
  | none => rfl
  | some reads => exact load_loop_mem_length cfg reads r 0

theorem ram_store_mem_length (cfg : Config) (r : ram) (addr v : Byte) :
    (ram_store cfg r addr v).mem.m.length = r.m.length := by
  unfold ram_store
  cases hw : m_write r (char_to_int cfg addr) v with
  | undef f => rfl
  | ok r1 => exact m_write_length r r1 _ v hw

theorem ram_load_mem (cfg : Config) (r : ram) (addr : Byte) :
    (ram_load cfg r addr).mem = r := by
  unfold ram_load
  split <;> rfl

theorem get_ins_mem_eq (cfg : Config) (r : ram) (pos : Int) (i0 : ins) :
    (get_ins cfg r pos i0).mem = r := by
  unfold get_ins
  split
  · rfl
  · split
    · rfl
    · split
      · rfl
      · split
        · rfl
        · split <;> rfl

theorem new_ram_length (cfg : Config) (malloc : Option (Nat → Byte)) (r : ram)
    (hnew : (new_ram cfg malloc).1 = some r) : r.m.length = cfg.MAX_RAM := by
  cases malloc with
  | none => simp [new_ram] at hnew
  | some raw =>
    simp only [new_ram, memset, Option.some.injEq] at hnew
    rw [← hnew]
    simp

/-- C13: the memory that `new_ram` returns has exactly `MAX_RAM` bytes, and
from a memory of `MAX_RAM` bytes every operation (`load_code` on any source,
however its reads deliver it, or on a failed open, `get_ins` at any `pos`, `ram_load` and `ram_store` with any
address byte and value) leaves a memory of `MAX_RAM` bytes, so that the indices
that hold a byte are exactly `0 .. MAX_RAM - 1`. -/
theorem ram_length_invariant (cfg : Config) (r : ram) (hlen : r.m.length = cfg.MAX_RAM) :
    (∀ (malloc : Option (Nat → Byte)) (r0 : ram), (new_ram cfg malloc).1 = some r0 →
        r0.m.length = cfg.MAX_RAM) ∧
      (∀ fp : Option (List (List Byte)), (load_code cfg r fp).mem.m.length = cfg.MAX_RAM) ∧
      (∀ (pos : Int) (i0 : ins), (get_ins cfg r pos i0).mem.m.length = cfg.MAX_RAM) ∧
      (∀ addr : Byte, (ram_load cfg r addr).mem.m.length = cfg.MAX_RAM) ∧
      (∀ addr v : Byte, (ram_store cfg r addr v).mem.m.length = cfg.MAX_RAM) ∧
      (∀ i : Nat, (∃ b, r.m[i]? = some b) ↔ i < cfg.MAX_RAM) := by
  refine ⟨new_ram_length cfg, ?_, ?_, ?_, ?_, ?_⟩
  · intro fp
    rw [load_code_mem_length, hlen]
  · intro pos i0
    rw [get_ins_mem_eq, hlen]
  · intro addr
    rw [ram_load_mem, hlen]
  · intro addr v
    rw [ram_store_mem_length, hlen]
  · intro i
    rw [← hlen]
    constructor
    · rintro ⟨b, hb⟩
      by_contra hge
      rw [List.getElem?_eq_none (by omega)] at hb
      exact Option.noConfusion hb
    · intro hi
      exact ⟨r.m[i], List.getElem?_eq_getElem hi⟩

/-- C13 on the build `tiny`: the eight-byte memory `sample` still has eight
bytes after a store, and after a load of a file that overflows it. -/
theorem ram_length_invariant_witness :
    sample.m.length = tiny.MAX_RAM ∧
      (ram_store tiny sample 5 99).mem.m.length = tiny.MAX_RAM ∧
      (load_code tiny sample (some [[1, 2, 3, 4, 5, 6, 7]])).mem.m.length = tiny.MAX_RAM :=
  have h := ram_length_invariant tiny sample (by decide)
  ⟨by decide, h.2.2.2.2.1 5 99, h.2.1 (some [[1, 2, 3, 4, 5, 6, 7]])⟩

/-! ## Files that do not fit -/

/-- A file of at least `size` bytes, `size` positive: the first `fread` fills
the buffer. -/
theorem fread_seq_full (size : Nat) (s : List Byte) (hpos : 0 < size) (hle : size ≤ s.length) :
    ∃ rest, fread_seq size s.length s = s.take size :: rest ∧ (s.take size).length = size := by
  obtain ⟨k, hk⟩ : ∃ k, s.length = k + 1 := ⟨s.length - 1, by omega⟩
  have hl : (s.take size).length = size := by simp [List.length_take]; omega
  refine ⟨fread_seq size k (s.drop size), ?_, hl⟩
  rw [hk, fread_seq, if_neg (by omega)]

theorem fread_seq_zero (fuel : Nat) (s : List Byte) : fread_seq 0 fuel s = [] := by
  cases fuel <;> simp [fread_seq]

/-- When the first read fills the buffer, the loop is left at once: the message
is printed and nothing is copied (with a buffer of no byte, the read delivers
nothing and the loop is not entered). -/
theorem load_loop_full_first (cfg : Config) (r : ram) (buff : List Byte)
    (rest : List (List Byte)) (hfull : buff.length = cfg.MAX_RAM) :
    load_loop cfg r 0 (buff :: rest) =
      { res := Result.ok (), mem := r, err := if 0 < cfg.MAX_RAM then [Msg.too_big] else [] } := by
  simp only [load_loop]
  by_cases hpos : 0 < cfg.MAX_RAM
  · rw [if_neg (by omega), if_pos (by omega), if_pos hpos]
  · rw [if_pos (by omega), if_neg hpos]

/-- C17, as amended: for every memory and every source whose first read returns
a full `MAX_RAM`-byte buffer, `load_code` returns and leaves the memory exactly
as it was: with a buffer of at least one byte, `total >= MAX_RAM` holds at
once, the message is printed and the loop is left before any copy. The first
read of a regular file of length `L >= MAX_RAM` is such a read. -/
theorem load_code_full_first_read (cfg : Config) (r : ram) (buff : List Byte)
    (rest : List (List Byte)) (hfull : buff.length = cfg.MAX_RAM) :
    (load_code cfg r (some (buff :: rest))).res = Result.ok () ∧
      (load_code cfg r (some (buff :: rest))).mem = r ∧
      (0 < cfg.MAX_RAM →
        load_code cfg r (some (buff :: rest)) =
          { res := Result.ok (), mem := r, err := [Msg.too_big] }) ∧
      (∀ src : List Byte, cfg.MAX_RAM ≤ src.length →
        (load_code cfg r (some (fread_seq cfg.MAX_RAM src.length src))).res = Result.ok () ∧
        (load_code cfg r (some (fread_seq cfg.MAX_RAM src.length src))).mem = r) := by
  have h : load_code cfg r (some (buff :: rest)) =
      { res := Result.ok (), mem := r, err := if 0 < cfg.MAX_RAM then [Msg.too_big] else [] } :=
    load_loop_full_first cfg r buff rest hfull
  refine ⟨by rw [h], by rw [h], fun hpos => by rw [h, if_pos hpos], ?_⟩
  intro src hbig
  by_cases hpos : 0 < cfg.MAX_RAM
  · obtain ⟨rest1, hseq, hl⟩ := fread_seq_full cfg.MAX_RAM src hpos hbig
    have h1 : load_code cfg r (some (fread_seq cfg.MAX_RAM src.length src)) =
        { res := Result.ok (), mem := r,
          err := if 0 < cfg.MAX_RAM then [Msg.too_big] else [] } := by
      rw [hseq]
      exact load_loop_full_first cfg r _ rest1 hl
    rw [h1]
    exact ⟨rfl, rfl⟩
  · have hz : cfg.MAX_RAM = 0 := by omega
    rw [hz, fread_seq_zero]
    exact ⟨rfl, rfl⟩

/-- C17, the amended statement on the build `tiny`: a first read of eight bytes
leaves `sample` as it was and the message is printed. -/
theorem load_code_full_first_read_witness :
    [(1 : Byte), 2, 3, 4, 5, 6, 7, 8].length = tiny.MAX_RAM ∧
      load_code tiny sample (some [[1, 2, 3, 4, 5, 6, 7, 8], [9]]) =
        { res := Result.ok (), mem := sample, err := [Msg.too_big] } :=
  ⟨by decide,
    (load_code_full_first_read tiny sample [1, 2, 3, 4, 5, 6, 7, 8] [[9]] (by decide)).2.2.1
      (by decide)⟩

/-- C17 fails as stated: on the build `tiny` a source of eight bytes
(`L = MAX_RAM`) whose first read delivers five bytes and whose second delivers
three is not left before any copy: the five bytes are copied to the addresses
2 to 6 and only the second read reaches `total >= MAX_RAM`. -/
theorem load_code_short_first_read_copies :
    tiny.MAX_RAM ≤ ([[1, 2, 3, 4, 5], [6, 7, 8]] : List (List Byte)).flatten.length ∧
      load_code tiny sample (some [[1, 2, 3, 4, 5], [6, 7, 8]]) =
        { res := Result.ok (), mem := { m := [10, 11, 1, 2, 3, 4, 5, 17] },
          err := [Msg.too_big] } ∧
      (load_code tiny sample (some [[1, 2, 3, 4, 5], [6, 7, 8]])).mem ≠ sample := by
  decide

/-! ## The index of a byte address -/

theorem char_to_int_signed (cfg : Config) (hs : cfg.char_signed = true) (c : Byte) :
    char_to_int cfg c = if c.val < 128 then (c.val : Int) else (c.val : Int) - 256 := by
  unfold char_to_int
  by_cases h : c.val < 128
  · rw [if_neg (by omega), if_pos h]
  · rw [if_pos ⟨hs, by omega⟩, if_neg h]

theorem m_read_neg (r : ram) (i : Int) (h : i < 0) :
    m_read r i = Result.undef (Fault.outOfBounds i) := by
  unfold m_read
  rw [if_neg (by omega)]

theorem m_write_neg (r : ram) (i : Int) (v : Byte) (h : i < 0) :
    m_write r i v = Result.undef (Fault.outOfBounds i) := by
  unfold m_write
  rw [if_neg (by omega)]

/-- A byte that `m_read` yields is the byte at a natural index equal to `i`. -/
theorem m_read_ok_inv (r : ram) (i : Int) (b : Byte) (h : m_read r i = Result.ok b) :
    0 ≤ i ∧ r.m[i.toNat]? = some b := by
  unfold m_read at h
  split at h
  · next h0 =>
    split at h
    · next b1 hb =>
      simp only [Result.ok.injEq] at h
      exact ⟨h0, by rw [hb, h]⟩
    · exact Result.noConfusion h
  · exact Result.noConfusion h

/-- C14: with a signed `char`, the index that `ram_load` and `ram_store` compute
from an address byte of unsigned value `u` is `u` when `u < 128` and `u - 256`,
a negative index, when `u >= 128`: for `u >= 128` both calls index the buffer
at `u - 256`, for `u < 128` inside the buffer they read and write index `u`; so
no store changes a byte at an index from 128 on, and every byte that a load
yields is at an index below 128. -/
theorem char_index_sign_extension (cfg : Config) (r : ram) (addr v : Byte)
    (hs : cfg.char_signed = true) :
    char_to_int cfg addr = (if addr.val < 128 then (addr.val : Int) else (addr.val : Int) - 256) ∧
      (128 ≤ addr.val →
        ram_load cfg r addr =
          { res := Result.undef (Fault.outOfBounds ((addr.val : Int) - 256)), mem := r, err := [] } ∧
        ram_store cfg r addr v =
          { res := Result.undef (Fault.outOfBounds ((addr.val : Int) - 256)), mem := r, err := [] }) ∧
      (addr.val < 128 → addr.val < r.m.length →
        (∃ b : Byte, r.m[addr.val]? = some b ∧
          ram_load cfg r addr = { res := Result.ok (0, b), mem := r, err := [] }) ∧
        ram_store cfg r addr v =
          { res := Result.ok 0, mem := { m := r.m.set addr.val v }, err := [] }) ∧
      (∀ i : Nat, 128 ≤ i → (ram_store cfg r addr v).mem.m[i]? = r.m[i]?) ∧
      (∀ (ret : Int) (b : Byte), (ram_load cfg r addr).res = Result.ok (ret, b) →
        ∃ i : Nat, i < 128 ∧ r.m[i]? = some b) := by
  have hidx := char_to_int_signed cfg hs addr
  refine ⟨hidx, ?_, ?_, ?_, ?_⟩
  · intro hhi
    rw [if_neg (by omega)] at hidx
    have hneg : (addr.val : Int) - 256 < 0 := by have := addr.isLt; omega
    constructor
    · unfold ram_load
      rw [hidx, m_read_neg r _ hneg]
    · unfold ram_store
      rw [hidx, m_write_neg r _ v hneg]
  · intro hlo hin
    rw [if_pos hlo] at hidx
    refine ⟨⟨r.m[addr.val], List.getElem?_eq_getElem hin, ?_⟩, ?_⟩
    · unfold ram_load
      rw [hidx, m_read_nat r addr.val _ (List.getElem?_eq_getElem hin)]
    · unfold ram_store
      rw [hidx, m_write_nat r addr.val v hin]
  · intro i hi
    by_cases hlo : addr.val < 128
    · rw [if_pos hlo] at hidx
      unfold ram_store
      rw [hidx]
      by_cases hin : addr.val < r.m.length
      · rw [m_write_nat r addr.val v hin]
        simp only
        rw [List.getElem?_set_ne (by omega)]
      · rw [m_write_nat_out r addr.val v (by omega)]
    · rw [if_neg hlo] at hidx
      have hneg : (addr.val : Int) - 256 < 0 := by have := addr.isLt; omega
      unfold ram_store
      rw [hidx, m_write_neg r _ v hneg]
  · intro ret b h
    unfold ram_load at h
    cases hr : m_read r (char_to_int cfg addr) with
    | undef f => rw [hr] at h; exact Result.noConfusion h
    | ok b1 =>
      rw [hr] at h
      simp only [Result.ok.injEq, Prod.mk.injEq] at h
      obtain ⟨h0, hb⟩ := m_read_ok_inv r _ b1 hr
      by_cases hlo : addr.val < 128
      · rw [if_pos hlo] at hidx
        rw [hidx] at hb
        exact ⟨addr.val, hlo, by rw [← h.2]; simpa using hb⟩
      · rw [if_neg hlo] at hidx
        have := addr.isLt
        omega

/-- C14 on the constants of the scenario, for the address byte 200: the index
is `200 - 256` and both calls are undefined there. -/
theorem char_index_sign_extension_witness :
    scenario.char_signed = true ∧
      ram_load scenario (filled 256 0) 200 =
        { res := Result.undef (Fault.outOfBounds (((200 : Byte).val : Int) - 256)),
          mem := filled 256 0, err := [] } ∧
      ram_store scenario (filled 256 0) 200 7 =
        { res := Result.undef (Fault.outOfBounds (((200 : Byte).val : Int) - 256)),
          mem := filled 256 0, err := [] } :=
  ⟨rfl, (char_index_sign_extension scenario (filled 256 0) 200 7 rfl).2.1 (by decide)⟩

theorem set_same (l : List Byte) (i : Nat) (v : Byte) (h : l[i]? = some v) : l.set i v = l := by
  apply List.ext_getElem?
  intro n
  by_cases hn : i = n
  · subst hn
    rw [List.getElem?_set, if_pos rfl, h]
    have : i < l.length := by
      by_contra hge
      rw [List.getElem?_eq_none (by omega)] at h
      exact Option.noConfusion h
    simp [this]
  · rw [List.getElem?_set_ne hn]

/-- C15: for every memory of `MAX_RAM` bytes, every address byte whose index
`a` lies in `[0, MAX_RAM)` and every byte `v`, `ram_store` returns 0, the byte
at `a` becomes `v`, every byte at an index other than `a` is unchanged, and the
whole memory is unchanged when the byte at `a` was `v` already. -/
theorem ram_store_frame (cfg : Config) (r : ram) (addr v : Byte)
    (hlen : r.m.length = cfg.MAX_RAM) (h0 : 0 ≤ char_to_int cfg addr)
    (h1 : char_to_int cfg addr < (cfg.MAX_RAM : Int)) :
    (ram_store cfg r addr v).res = Result.ok 0 ∧
      (ram_store cfg r addr v).mem.m[(char_to_int cfg addr).toNat]? = some v ∧
      (∀ b : Nat, b ≠ (char_to_int cfg addr).toNat →
        (ram_store cfg r addr v).mem.m[b]? = r.m[b]?) ∧
      (r.m[(char_to_int cfg addr).toNat]? = some v → (ram_store cfg r addr v).mem = r) := by
  obtain ⟨n, hn⟩ := Int.eq_ofNat_of_zero_le h0
  have hlt : n < r.m.length := by omega
  have hrun : ram_store cfg r addr v =
      { res := Result.ok 0, mem := { m := r.m.set n v }, err := [] } := by
    unfold ram_store
    rw [hn, m_write_nat r n v hlt]
  rw [hrun, hn]
  have e : (n : Int).toNat = n := Int.toNat_ofNat n
  rw [e]
  refine ⟨rfl, ?_, ?_, ?_⟩
  · rw [List.getElem?_set, if_pos rfl]
    simp [hlt]
  · intro b hb
    rw [List.getElem?_set_ne (fun h => hb h.symm)]
  · intro hv
    rw [set_same r.m n v hv]

/-- C15 on the build `tiny`: a store of 99 at address 5 of `sample`. -/
theorem ram_store_frame_witness :
    sample.m.length = tiny.MAX_RAM ∧ 0 ≤ char_to_int tiny 5 ∧
      char_to_int tiny 5 < (tiny.MAX_RAM : Int) ∧
      (ram_store tiny sample 5 99).res = Result.ok 0 ∧
      (∀ b : Nat, b ≠ (char_to_int tiny 5).toNat →
        (ram_store tiny sample 5 99).mem.m[b]? = sample.m[b]?) :=
  have h := ram_store_frame tiny sample 5 99 (by decide) (by decide) (by decide)
  ⟨by decide, by decide, by decide, h.1, h.2.2.1⟩

/-- C18: for every memory of `MAX_RAM` bytes and every address byte whose index
`a` lies in `[0, MAX_RAM)`, `ram_load` returns 0, sets the output to the byte at
`a` and leaves the memory as it was. -/
theorem ram_load_total (cfg : Config) (r : ram) (addr : Byte)
    (hlen : r.m.length = cfg.MAX_RAM) (h0 : 0 ≤ char_to_int cfg addr)
    (h1 : char_to_int cfg addr < (cfg.MAX_RAM : Int)) :
    ∃ b : Byte, r.m[(char_to_int cfg addr).toNat]? = some b ∧
      (ram_load cfg r addr).res = Result.ok (0, b) ∧ (ram_load cfg r addr).mem = r ∧
      (ram_load cfg r addr).err = [] := by
  obtain ⟨n, hn⟩ := Int.eq_ofNat_of_zero_le h0
  have hlt : n < r.m.length := by omega
  have hrun : ram_load cfg r addr = { res := Result.ok (0, r.m[n]), mem := r, err := [] } := by
    unfold ram_load
    rw [hn, m_read_nat r n _ (List.getElem?_eq_getElem hlt)]
  refine ⟨r.m[n], ?_, ?_, ?_, ?_⟩
  · rw [hn]; simp
  · rw [hrun]
  · rw [hrun]
  · rw [hrun]

/-- C18 on the build `tiny`: a load at address 5 of `sample` yields 15. -/
theorem ram_load_total_witness :
    sample.m.length = tiny.MAX_RAM ∧ 0 ≤ char_to_int tiny 5 ∧
      char_to_int tiny 5 < (tiny.MAX_RAM : Int) ∧
      (ram_load tiny sample 5).res = Result.ok (0, 15) ∧ (ram_load tiny sample 5).mem = sample := by
  refine ⟨by decide, by decide, by decide, ?_⟩
  obtain ⟨b, hb, hres, hmem, _⟩ :=
    ram_load_total tiny sample 5 (by decide) (by decide) (by decide)
  have e : b = 15 := (Option.some.inj hb).symm
  exact ⟨by rw [hres, e], hmem⟩

/-! ## The test of `get_ins` -/

set_option maxRecDepth 100000 in
/-- C11 on the code: with `MAX_RAM = 256` and `MAX_STACK = 64`, the source
`[1, 2, 3]` loaded into a fresh memory in two reads, `[1, 2]` then `[3]`, gives
the fetch `(3, 2, 0)` at 64 and the loads 3, 2, 0 at 64, 65, 66, not 1, 2, 3.
Loaded in one read, it gives what the scenario of the spec expects. -/
theorem load_two_reads_then_read :
    (new_ram scenario (some (fun _ => 5))).1 = some (filled 256 0) ∧
      [(1 : Byte), 2, 3].length + scenario.MAX_STACK ≤ scenario.MAX_RAM ∧
      ([[1, 2], [3]] : List (List Byte)).flatten = [1, 2, 3] ∧
      (load_code scenario (filled 256 0) (some [[1, 2], [3]])).res = Result.ok () ∧
      (get_ins scenario (load_code scenario (filled 256 0) (some [[1, 2], [3]])).mem 64
          ⟨9, 9, 9⟩).res = Result.ok (0, { ins := 3, arg1 := 2, arg2 := 0 }) ∧
      (ram_load scenario (load_code scenario (filled 256 0) (some [[1, 2], [3]])).mem 64).res =
        Result.ok (0, 3) ∧
      (ram_load scenario (load_code scenario (filled 256 0) (some [[1, 2], [3]])).mem 65).res =
        Result.ok (0, 2) ∧
      (ram_load scenario (load_code scenario (filled 256 0) (some [[1, 2], [3]])).mem 66).res =
        Result.ok (0, 0) ∧
      (get_ins scenario (load_code scenario (filled 256 0) (some [[1, 2, 3]])).mem 64
          ⟨9, 9, 9⟩).res = Result.ok (0, { ins := 1, arg1 := 2, arg2 := 3 }) ∧
      (ram_load scenario (load_code scenario (filled 256 0) (some [[1, 2, 3]])).mem 64).res =
        Result.ok (0, 1) ∧
      (ram_load scenario (load_code scenario (filled 256 0) (some [[1, 2, 3]])).mem 65).res =
        Result.ok (0, 2) ∧
      (ram_load scenario (load_code scenario (filled 256 0) (some [[1, 2, 3]])).mem 66).res =
        Result.ok (0, 3) := by
  decide

set_option maxRecDepth 100000 in
/-- C12 on the code: with `MAX_RAM = 256` and `MAX_STACK = 64`, the file
`[1, 2, 3]` delivered in one read ends at the addresses 64, 65, 66; delivered
as `[1, 2]` and then `[3]`, the second `memcpy` goes to `ram->m + MAX_STACK`
again and the memory ends with 3, 2 and the old byte 0 there. -/
theorem load_loop_second_read_overwrites :
    [(1 : Byte), 2, 3].length + scenario.MAX_STACK ≤ scenario.MAX_RAM ∧
      ([[1, 2], [3]] : List (List Byte)).flatten = [1, 2, 3] ∧
      load_code scenario (filled 256 0) (some (fread_seq scenario.MAX_RAM 3 [1, 2, 3])) =
        load_loop scenario (filled 256 0) 0 [[1, 2, 3]] ∧
      load_loop scenario (filled 256 0) 0 [[1, 2, 3]] =
        { res := Result.ok (),
          mem := { m := List.replicate 64 0 ++ [1, 2, 3] ++ List.replicate 189 0 }, err := [] } ∧
      load_loop scenario (filled 256 0) 0 [[1, 2], [3]] =
        { res := Result.ok (),
          mem := { m := List.replicate 64 0 ++ [3, 2, 0] ++ List.replicate 189 0 }, err := [] } ∧
      load_code scenario (filled 256 0) (some [[1, 2], [3]]) =
        { res := Result.ok (),
          mem := { m := List.replicate 64 0 ++ [3, 2, 0] ++ List.replicate 189 0 }, err := [] } := by
  decide

end Rhino
